import Mathlib

/-!
Verification of the sliding-window rate limiter in `src/index.ts`.

The JavaScript `Map<UserId, UserRequests>` is modelled as an insertion-ordered
association list; timestamps and the configuration values are integers.  The
in-place array mutations of the source (`splice`, `push`) become explicit
store updates, and the reaper sweep is a function of its wall-clock instant.
-/

namespace RateLimiter

/-- Client identifier (`UserId` in the source): an opaque string. -/
abbrev UserId := String

/-- A client's request log (`UserRequests`): timestamps in insertion order. -/
abbrev UserRequests := List Int

/-- The private `requests` field: a JavaScript `Map` modelled as an
insertion-ordered association list. -/
abbrev Store := List (UserId × UserRequests)

/-- Semantics of `Map.get(id)`: the value at the first matching key. -/
def storeGet : Store → UserId → Option UserRequests
  | [], _ => none
  | (k, v) :: rest, id => if k = id then some v else storeGet rest id

/-- Semantics of `Map.set(id, v)`: replace the value at an existing key in
place, otherwise append the new key at the end (JavaScript insertion order). -/
def storeSet : Store → UserId → UserRequests → Store
  | [], id, v => [(id, v)]
  | (k, w) :: rest, id, v =>
      if k = id then (k, v) :: rest else (k, w) :: storeSet rest id v

/-- The front-pruning while loop plus `splice(0, i)` of `acceptRequest`
(src/index.ts lines 42-51) and of `cleanupStaleRequests` (lines 85-94):
drop leading timestamps `t` with `now - t >= timeWindow`, stopping at the
first entry strictly inside the window. -/
def pruneLog (timeWindow now : Int) : UserRequests → UserRequests
  | [] => []
  | t :: rest =>
      if timeWindow ≤ now - t then pruneLog timeWindow now rest else t :: rest

/-- Outcome of one `acceptRequest` call: the returned boolean, whether
`console.warn` fired, and the state of the `requests` map afterwards. -/
structure AcceptResult where
  result : Bool
  warned : Bool
  store : Store
deriving DecidableEq

/-- `RateLimiter.acceptRequest` (src/index.ts lines 26-60).  Note that in the
denial branch the pruning performed by `splice` is still committed to the map,
because the array is mutated in place. -/
def acceptRequest (timeWindow maxRequests : Int) (store : Store)
    (id : UserId) (timestamp : Int) : AcceptResult :=
  if timestamp < 0 then
    ⟨false, true, store⟩
  else
    match storeGet store id with
    | none => ⟨true, false, storeSet store id [timestamp]⟩
    | some userRequests =>
        let pruned := pruneLog timeWindow timestamp userRequests
        if maxRequests ≤ (pruned.length : Int) then
          ⟨false, false, storeSet store id pruned⟩
        else
          ⟨true, false, storeSet store id (pruned ++ [timestamp])⟩

/-- `RateLimiter.cleanupStaleRequests` (src/index.ts lines 82-101), with the
wall-clock instant `now` taken as a parameter: prune every tracked client's
log and delete entries whose log becomes empty. -/
def cleanupStaleRequests (timeWindow now : Int) (store : Store) : Store :=
  store.filterMap (fun entry =>
    let pruned := pruneLog timeWindow now entry.2
    if pruned.length = 0 then none else some (entry.1, pruned))

/-- `RateLimiter.getCurrentRequestCount` (src/index.ts lines 117-119). -/
def getCurrentRequestCount (store : Store) (id : UserId) : Nat :=
  match storeGet store id with
  | none => 0
  | some l => l.length

/-- `RateLimiter.getTrackedUserCount` (src/index.ts lines 124-126). -/
def getTrackedUserCount (store : Store) : Nat :=
  store.length

/-- The validated configuration held by a constructed instance. -/
structure Config where
  timeWindow : Int
  maxRequests : Int
deriving DecidableEq

/-- The validation performed by `RateLimiter.constructor` (src/index.ts lines
13-20): non-positive arguments throw, otherwise both values are stored
unchanged.  The background task the constructor also starts is the reaper
modelled by `cleanupStaleRequests`. -/
def construct (timeWindow maxRequests : Int) : Except String Config :=
  if timeWindow ≤ 0 ∨ maxRequests ≤ 0 then
    .error "timeWindow and maxRequests must be positive numbers."
  else
    .ok ⟨timeWindow, maxRequests⟩

/-- States of the `requests` map reachable from construction by any
interleaving of admission checks and reaper sweeps. -/
inductive Reachable (timeWindow maxRequests : Int) : Store → Prop where
  | init : Reachable timeWindow maxRequests []
  | accept {s : Store} (id : UserId) (timestamp : Int) :
      Reachable timeWindow maxRequests s →
      Reachable timeWindow maxRequests
        (acceptRequest timeWindow maxRequests s id timestamp).store
  | sweep {s : Store} (now : Int) :
      Reachable timeWindow maxRequests s →
      Reachable timeWindow maxRequests (cleanupStaleRequests timeWindow now s)

/-- Number of timestamps of a log strictly inside the half-open window
ending at `now`. -/
def countFresh (timeWindow now : Int) (log : UserRequests) : Nat :=
  (log.filter (fun t => decide (now - t < timeWindow))).length

/-! ### Helper lemmas about the store and pruning -/

theorem pruneLog_length_le (timeWindow now : Int) (l : UserRequests) :
    (pruneLog timeWindow now l).length ≤ l.length := by
  induction l with
  | nil => exact Nat.le_refl _
  | cons t rest ih =>
      simp only [pruneLog]
      split
      · exact ih.trans (Nat.le_succ _)
      · exact Nat.le_refl _

theorem pruneLog_eq_nil (timeWindow now : Int) (l : UserRequests)
    (h : ∀ t ∈ l, timeWindow ≤ now - t) : pruneLog timeWindow now l = [] := by
  induction l with
  | nil => rfl
  | cons t rest ih =>
      simp only [pruneLog, if_pos (h t (List.mem_cons_self t rest))]
      exact ih fun x hx => h x (List.mem_cons_of_mem t hx)

theorem storeGet_storeSet (s : Store) (id idq : UserId) (v : UserRequests) :
    storeGet (storeSet s id v) idq =
      if id = idq then some v else storeGet s idq := by
  induction s with
  | nil => simp [storeSet, storeGet]
  | cons e rest ih =>
      obtain ⟨k, w⟩ := e
      by_cases hk : k = id
      · subst hk
        by_cases hq : k = idq
        · subst hq; simp [storeSet, storeGet]
        · simp [storeSet, storeGet, hq]
      · by_cases hq : k = idq
        · subst hq
          have hid : id ≠ k := fun h => hk h.symm
          simp [storeSet, storeGet, hk, hid]
        · simp [storeSet, storeGet, hk, hq, ih]

theorem storeGet_eq_none_iff (s : Store) (id : UserId) :
    storeGet s id = none ↔ id ∉ s.map Prod.fst := by
  induction s with
  | nil => simp [storeGet]
  | cons e rest ih =>
      obtain ⟨k, w⟩ := e
      by_cases hk : k = id
      · subst hk; simp [storeGet]
      · simp [storeGet, hk, ih, Ne.symm hk]

theorem storeSet_map_fst (s : Store) (id : UserId) (v : UserRequests) :
    (storeSet s id v).map Prod.fst =
      if id ∈ s.map Prod.fst then s.map Prod.fst
      else s.map Prod.fst ++ [id] := by
  induction s with
  | nil => simp [storeSet]
  | cons e rest ih =>
      obtain ⟨k, w⟩ := e
      by_cases hk : k = id
      · subst hk; simp [storeSet]
      · simp only [storeSet, if_neg hk, List.map_cons]
        rw [ih]
        by_cases hm : id ∈ rest.map Prod.fst
        · simp [hm, Ne.symm hk]
        · simp [hm, Ne.symm hk]

theorem nodup_storeSet (s : Store) (id : UserId) (v : UserRequests)
    (h : (s.map Prod.fst).Nodup) :
    ((storeSet s id v).map Prod.fst).Nodup := by
  rw [storeSet_map_fst]
  by_cases hm : id ∈ s.map Prod.fst
  · simpa [hm] using h
  · simp [hm, List.nodup_append, h]

theorem cleanup_cons (timeWindow now : Int) (k : UserId) (v : UserRequests)
    (rest : Store) :
    cleanupStaleRequests timeWindow now ((k, v) :: rest) =
      if (pruneLog timeWindow now v).length = 0 then
        cleanupStaleRequests timeWindow now rest
      else (k, pruneLog timeWindow now v) ::
        cleanupStaleRequests timeWindow now rest := by
  by_cases hp : (pruneLog timeWindow now v).length = 0 <;>
    rw [List.length_eq_zero] at hp <;>
    simp [cleanupStaleRequests, List.filterMap_cons, hp, List.length_eq_zero]

theorem cleanup_keys_sublist (timeWindow now : Int) (s : Store) :
    ((cleanupStaleRequests timeWindow now s).map Prod.fst).Sublist
      (s.map Prod.fst) := by
  induction s with
  | nil => simp [cleanupStaleRequests]
  | cons e rest ih =>
      obtain ⟨k, v⟩ := e
      rw [cleanup_cons]
      split
      · exact ih.cons k
      · simpa using ih.cons₂ k

theorem storeGet_cleanup (timeWindow now : Int) (s : Store) (id : UserId)
    (hnd : (s.map Prod.fst).Nodup) :
    storeGet (cleanupStaleRequests timeWindow now s) id =
      match storeGet s id with
      | none => none
      | some l =>
          if (pruneLog timeWindow now l).length = 0 then none
          else some (pruneLog timeWindow now l) := by
  induction s with
  | nil => simp [cleanupStaleRequests, storeGet]
  | cons e rest ih =>
      obtain ⟨k, v⟩ := e
      simp only [List.map_cons, List.nodup_cons] at hnd
      obtain ⟨hkn, hnd2⟩ := hnd
      rw [cleanup_cons]
      by_cases hk : k = id
      · subst hk
        by_cases hp : (pruneLog timeWindow now v).length = 0
        · rw [if_pos hp]
          have hnone : storeGet (cleanupStaleRequests timeWindow now rest) k =
              none := by
            rw [storeGet_eq_none_iff]
            intro hmem
            exact hkn ((cleanup_keys_sublist timeWindow now rest).subset hmem)
          rw [hnone]
          simp [storeGet, hp]
        · rw [if_neg hp]
          simp [storeGet, hp]
      · by_cases hp : (pruneLog timeWindow now v).length = 0
        · rw [if_pos hp, ih hnd2]
          simp [storeGet, hk]
        · rw [if_neg hp]
          simp [storeGet, hk, ih hnd2]

theorem accept_store_spec (timeWindow maxRequests : Int) (s : Store)
    (id : UserId) (timestamp : Int) :
    (acceptRequest timeWindow maxRequests s id timestamp).store = s ∨
    ∃ v, (acceptRequest timeWindow maxRequests s id timestamp).store =
        storeSet s id v ∧
      (v = [timestamp] ∧ storeGet s id = none ∨
       ∃ l, storeGet s id = some l ∧
         (v = pruneLog timeWindow timestamp l ∧
            maxRequests ≤ (v.length : Int) ∨
          v = pruneLog timeWindow timestamp l ++ [timestamp] ∧
            ((pruneLog timeWindow timestamp l).length : Int) < maxRequests)) := by
  by_cases ht : timestamp < 0
  · left
    simp [acceptRequest, ht]
  · cases hg : storeGet s id with
    | none =>
        right
        exact ⟨[timestamp], by simp [acceptRequest, ht, hg], Or.inl ⟨rfl, rfl⟩⟩
    | some l =>
        by_cases hq :
            maxRequests ≤ ((pruneLog timeWindow timestamp l).length : Int)
        · right
          exact ⟨pruneLog timeWindow timestamp l,
            by simp [acceptRequest, ht, hg, hq],
            Or.inr ⟨l, rfl, Or.inl ⟨rfl, hq⟩⟩⟩
        · right
          refine ⟨pruneLog timeWindow timestamp l ++ [timestamp],
            by simp [acceptRequest, ht, hg, hq],
            Or.inr ⟨l, rfl, Or.inr ⟨rfl, ?_⟩⟩⟩
          omega

theorem accept_result_congr (timeWindow maxRequests : Int) {s1 s2 : Store}
    (id : UserId) (timestamp : Int) (h : storeGet s1 id = storeGet s2 id) :
    (acceptRequest timeWindow maxRequests s1 id timestamp).result =
      (acceptRequest timeWindow maxRequests s2 id timestamp).result := by
  by_cases ht : timestamp < 0
  · simp [acceptRequest, ht]
  · cases hg : storeGet s2 id with
    | none =>
        rw [hg] at h
        simp [acceptRequest, ht, hg, h]
    | some l =>
        rw [hg] at h
        simp only [acceptRequest, if_neg ht, h, hg]
        split <;> rfl

theorem reachable_invariant {timeWindow maxRequests : Int}
    (hN : 0 < maxRequests) {s : Store}
    (h : Reachable timeWindow maxRequests s) :
    (s.map Prod.fst).Nodup ∧
      ∀ id l, storeGet s id = some l →
        l ≠ [] ∧ (l.length : Int) ≤ maxRequests := by
  induction h with
  | init =>
      refine ⟨List.nodup_nil, ?_⟩
      intro id l hl
      simp [storeGet] at hl
  | accept id timestamp hs ih =>
      obtain ⟨ihnd, ihlen⟩ := ih
      rcases accept_store_spec timeWindow maxRequests _ id timestamp with
        heq | ⟨v, heq, hv⟩
      · rw [heq]
        exact ⟨ihnd, ihlen⟩
      · rw [heq]
        refine ⟨nodup_storeSet _ _ _ ihnd, ?_⟩
        intro idq l hl
        rw [storeGet_storeSet] at hl
        by_cases hid : id = idq
        · rw [if_pos hid] at hl
          obtain rfl : v = l := by injection hl
          rcases hv with ⟨rfl, hnone⟩ | ⟨l0, hg0, hcase⟩
          · refine ⟨by simp, by simpa using hN⟩
          · obtain ⟨hne0, hlen0⟩ := ihlen id l0 hg0
            have hple : (pruneLog timeWindow timestamp l0).length ≤ l0.length :=
              pruneLog_length_le _ _ _
            rcases hcase with ⟨hveq, hq⟩ | ⟨hveq, hq⟩
            · subst hveq
              constructor
              · intro hnil
                rw [hnil] at hq
                simp at hq
                omega
              · omega
            · subst hveq
              constructor
              · simp
              · have hlen1 :
                    (pruneLog timeWindow timestamp l0 ++ [timestamp]).length =
                      (pruneLog timeWindow timestamp l0).length + 1 := by
                  simp
                rw [hlen1]
                push_cast
                omega
        · rw [if_neg hid] at hl
          exact ihlen idq l hl
  | sweep now hs ih =>
      obtain ⟨ihnd, ihlen⟩ := ih
      refine ⟨(cleanup_keys_sublist _ _ _).nodup ihnd, ?_⟩
      intro id l hl
      rw [storeGet_cleanup _ _ _ _ ihnd] at hl
      split at hl
      · exact absurd hl (by simp)
      · rename_i l0 hg0
        split at hl
        · exact absurd hl (by simp)
        · rename_i hp
          obtain rfl : pruneLog timeWindow now l0 = l := by injection hl
          obtain ⟨hne0, hlen0⟩ := ihlen _ _ hg0
          have hple := pruneLog_length_le timeWindow now l0
          refine ⟨?_, by omega⟩
          intro hnil
          rw [hnil] at hp
          simp at hp

/-! ### Claim theorems -/

/-- C1: for a limiter with windowSize 5000 and maxRequests 2, the sequence
acceptRequest(A,1000), (A,2000), (A,3000), (B,3000), (A,6000), (A,7000),
(A,8000) returns true, true, false, true, true, true, false in order. -/
theorem accept_demo_sequence :
    (let r1 := acceptRequest 5000 2 [] "A" 1000
     let r2 := acceptRequest 5000 2 r1.store "A" 2000
     let r3 := acceptRequest 5000 2 r2.store "A" 3000
     let r4 := acceptRequest 5000 2 r3.store "B" 3000
     let r5 := acceptRequest 5000 2 r4.store "A" 6000
     let r6 := acceptRequest 5000 2 r5.store "A" 7000
     let r7 := acceptRequest 5000 2 r6.store "A" 8000
     (r1.result, r2.result, r3.result, r4.result, r5.result, r6.result,
       r7.result)) =
    (true, true, false, true, true, true, false) := by decide

/-- C2: in any reachable state of a limiter with maxRequests = N > 0, at the
moment an admission decision for a client is made (the committed log right
after the call, with `now` the call's timestamp), the number of timestamps
`t` in that client's stored log with `now - t < windowSize` never exceeds N. -/
theorem quota_at_decision (timeWindow maxRequests : Int)
    (hN : 0 < maxRequests) {s : Store}
    (h : Reachable timeWindow maxRequests s) (id : UserId) (now : Int) :
    ∀ l, storeGet (acceptRequest timeWindow maxRequests s id now).store id =
        some l →
      (countFresh timeWindow now l : Int) ≤ maxRequests := by
  intro l hl
  have hreach := Reachable.accept id now h
  have hinv := (reachable_invariant hN hreach).2 id l hl
  have hcf : countFresh timeWindow now l ≤ l.length :=
    List.length_filter_le _ _
  omega

theorem quota_at_decision_witness :
    (countFresh 5000 1000 [1000] : Int) ≤ 2 :=
  quota_at_decision 5000 2 (by decide) Reachable.init "A" 1000 [1000]
    (by decide)

/-- C3: the pruning step removes from the front exactly the leading
timestamps `t` with `timestamp - t ≥ windowSize`: the log splits into a
dropped all-stale prefix and the kept suffix whose head (if any) is strictly
inside the window; an entry exactly `windowSize` old is dropped, one strictly
younger is retained (half-open window). -/
theorem prune_halfopen_window (timeWindow now : Int) :
    (∀ log : UserRequests, ∃ stale fresh,
        log = stale ++ fresh ∧
        pruneLog timeWindow now log = fresh ∧
        (∀ t ∈ stale, timeWindow ≤ now - t) ∧
        ∀ t rest, fresh = t :: rest → now - t < timeWindow) ∧
    (∀ t rest, timeWindow ≤ now - t →
        pruneLog timeWindow now (t :: rest) = pruneLog timeWindow now rest) ∧
    (∀ t rest, now - t < timeWindow →
        pruneLog timeWindow now (t :: rest) = t :: rest) := by
  refine ⟨?_, ?_, ?_⟩
  · intro log
    induction log with
    | nil => exact ⟨[], [], rfl, rfl, by simp, by simp⟩
    | cons t rest ih =>
        by_cases hc : timeWindow ≤ now - t
        · obtain ⟨stale, fresh, hsplit, hprune, hstale, hfresh⟩ := ih
          refine ⟨t :: stale, fresh, by rw [hsplit]; rfl, ?_, ?_, hfresh⟩
          · simpa only [pruneLog, if_pos hc] using hprune
          · intro x hx
            rcases List.mem_cons.mp hx with rfl | hx2
            · exact hc
            · exact hstale x hx2
        · refine ⟨[], t :: rest, rfl, ?_, by simp, ?_⟩
          · simp only [pruneLog, if_neg hc]
          · intro x r hxr
            injection hxr with h1 h2
            subst h1
            omega
  · intro t rest hc
    simp only [pruneLog, if_pos hc]
  · intro t rest hc
    have hc2 : ¬ timeWindow ≤ now - t := by omega
    simp only [pruneLog, if_neg hc2]

theorem prune_halfopen_window_witness :
    pruneLog 5000 6000 [1000, 2000] = pruneLog 5000 6000 [2000] ∧
    pruneLog 5000 6000 [2000] = [2000] :=
  ⟨(prune_halfopen_window 5000 6000).2.1 1000 [2000] (by decide),
   (prune_halfopen_window 5000 6000).2.2 2000 [] (by decide)⟩

/-- C4: for a limiter with maxRequests ≥ 1 and a client with no entry in the
store, acceptRequest with a non-negative timestamp returns true and creates
that client's log containing exactly that single timestamp. -/
theorem first_request_admitted (timeWindow maxRequests : Int)
    (_hN : 1 ≤ maxRequests) (s : Store) (id : UserId) (timestamp : Int)
    (hnew : storeGet s id = none) (ht : 0 ≤ timestamp) :
    (acceptRequest timeWindow maxRequests s id timestamp).result = true ∧
    storeGet (acceptRequest timeWindow maxRequests s id timestamp).store id =
      some [timestamp] := by
  have ht2 : ¬ timestamp < 0 := by omega
  constructor
  · simp [acceptRequest, ht2, hnew]
  · simp [acceptRequest, ht2, hnew, storeGet_storeSet]

theorem first_request_admitted_witness :
    (acceptRequest 5000 2 [] "A" 0).result = true ∧
    storeGet (acceptRequest 5000 2 [] "A" 0).store "A" = some [0] :=
  first_request_admitted 5000 2 (by decide) [] "A" 0 (by decide) (by decide)

/-- C5: for every client id and negative timestamp, acceptRequest returns
false, emits the diagnostic warning, and leaves the store completely
unchanged (so no tracked entry is ever created for an untracked client). -/
theorem negative_timestamp_rejected (timeWindow maxRequests : Int)
    (s : Store) (id : UserId) (timestamp : Int) (ht : timestamp < 0) :
    (acceptRequest timeWindow maxRequests s id timestamp).result = false ∧
    (acceptRequest timeWindow maxRequests s id timestamp).warned = true ∧
    (acceptRequest timeWindow maxRequests s id timestamp).store = s := by
  refine ⟨?_, ?_, ?_⟩ <;> simp [acceptRequest, ht]

theorem negative_timestamp_rejected_witness :
    (acceptRequest 5000 2 [] "X" (-5)).result = false ∧
    (acceptRequest 5000 2 [] "X" (-5)).warned = true ∧
    (acceptRequest 5000 2 [] "X" (-5)).store = [] :=
  negative_timestamp_rejected 5000 2 [] "X" (-5) (by decide)

/-- C6: construction with windowSize ≤ 0 or maxRequests ≤ 0 fails with the
configuration error and yields no instance; valid arguments are stored
unchanged, never clamped.  In particular construct(0,5) and construct(1000,0)
both fail. -/
theorem invalid_configuration_rejected (timeWindow maxRequests : Int) :
    (timeWindow ≤ 0 ∨ maxRequests ≤ 0 →
      construct timeWindow maxRequests =
        Except.error "timeWindow and maxRequests must be positive numbers.") ∧
    (0 < timeWindow → 0 < maxRequests →
      construct timeWindow maxRequests =
        Except.ok ⟨timeWindow, maxRequests⟩) := by
  constructor
  · intro hbad
    simp [construct, hbad]
  · intro h1 h2
    have hgood : ¬ (timeWindow ≤ 0 ∨ maxRequests ≤ 0) := by omega
    simp [construct, hgood]

theorem invalid_configuration_rejected_witness :
    construct 0 5 =
      Except.error "timeWindow and maxRequests must be positive numbers." ∧
    construct 1000 0 =
      Except.error "timeWindow and maxRequests must be positive numbers." :=
  ⟨(invalid_configuration_rejected 0 5).1 (Or.inl (by decide)),
   (invalid_configuration_rejected 1000 0).1 (Or.inr (by decide))⟩

/-- C7: one reaper sweep at instant `now` prunes every tracked client's log
by the same half-open rule and deletes the client's entry whenever the log
becomes empty; consequently a client all of whose entries satisfy
`t + windowSize < now` is absent from the store after the sweep. -/
theorem reaper_sweep_spec (timeWindow now : Int) (s : Store)
    (hnd : (s.map Prod.fst).Nodup) (id : UserId) :
    storeGet (cleanupStaleRequests timeWindow now s) id =
      (match storeGet s id with
       | none => none
       | some l =>
           if (pruneLog timeWindow now l).length = 0 then none
           else some (pruneLog timeWindow now l)) ∧
    ∀ l, storeGet s id = some l → (∀ t ∈ l, t + timeWindow < now) →
      storeGet (cleanupStaleRequests timeWindow now s) id = none ∧
      id ∉ (cleanupStaleRequests timeWindow now s).map Prod.fst := by
  refine ⟨storeGet_cleanup timeWindow now s id hnd, ?_⟩
  intro l hl hstale
  have hnil : pruneLog timeWindow now l = [] := by
    apply pruneLog_eq_nil
    intro t htl
    have := hstale t htl
    omega
  have hget : storeGet (cleanupStaleRequests timeWindow now s) id = none := by
    rw [storeGet_cleanup timeWindow now s id hnd, hl]
    simp [hnil]
  exact ⟨hget, (storeGet_eq_none_iff _ _).mp hget⟩

theorem reaper_sweep_spec_witness :
    storeGet (cleanupStaleRequests 5000 99999 [("A", [1000])]) "A" = none ∧
    "A" ∉ (cleanupStaleRequests 5000 99999 [("A", [1000])]).map Prod.fst :=
  (reaper_sweep_spec 5000 99999 [("A", [1000])] (by decide) "A").2
    [1000] (by decide) (by decide)

/-- C8: in every state reachable by construction, acceptRequest and reaper
sweeps, every client key present in the store maps to a non-empty log. -/
theorem store_logs_nonempty (timeWindow maxRequests : Int)
    (hN : 0 < maxRequests) {s : Store}
    (h : Reachable timeWindow maxRequests s) (id : UserId)
    (l : UserRequests) (hl : storeGet s id = some l) : l ≠ [] :=
  ((reachable_invariant hN h).2 id l hl).1

theorem store_logs_nonempty_witness : ([1000] : UserRequests) ≠ [] :=
  store_logs_nonempty 5000 2 (by decide)
    (Reachable.accept "A" 1000 Reachable.init) "A" [1000] (by decide)

/-- C9: a call acceptRequest(A, t) leaves a distinct client B's log
unchanged, hence B's diagnostic count and the outcome of a subsequent check
for B are exactly as they would have been on the original store. -/
theorem client_independence (timeWindow maxRequests : Int) (s : Store)
    (a b : UserId) (hab : a ≠ b) (timestamp : Int) :
    storeGet (acceptRequest timeWindow maxRequests s a timestamp).store b =
      storeGet s b ∧
    getCurrentRequestCount
        (acceptRequest timeWindow maxRequests s a timestamp).store b =
      getCurrentRequestCount s b ∧
    ∀ t2, (acceptRequest timeWindow maxRequests
          (acceptRequest timeWindow maxRequests s a timestamp).store
          b t2).result =
        (acceptRequest timeWindow maxRequests s b t2).result := by
  have hget :
      storeGet (acceptRequest timeWindow maxRequests s a timestamp).store b =
        storeGet s b := by
    rcases accept_store_spec timeWindow maxRequests s a timestamp with
      heq | ⟨v, heq, _⟩
    · rw [heq]
    · rw [heq, storeGet_storeSet, if_neg hab]
  refine ⟨hget, ?_, ?_⟩
  · unfold getCurrentRequestCount
    rw [hget]
  · intro t2
    exact accept_result_congr timeWindow maxRequests b t2 hget

theorem client_independence_witness :
    storeGet (acceptRequest 5000 2 [("B", [7])] "A" 3).store "B" =
      storeGet [("B", [7])] "B" ∧
    (acceptRequest 5000 2
        (acceptRequest 5000 2 [("B", [7])] "A" 3).store "B" 9).result =
      (acceptRequest 5000 2 [("B", [7])] "B" 9).result :=
  ⟨(client_independence 5000 2 [("B", [7])] "A" "B" (by decide) 3).1,
   (client_independence 5000 2 [("B", [7])] "A" "B" (by decide) 3).2.2 9⟩

/-- C10: for maxRequests = N ≥ 1, in every reachable state each client's
stored log length is at most N at all times, not only at decision moments. -/
theorem log_length_bounded (timeWindow maxRequests : Int)
    (hN : 1 ≤ maxRequests) {s : Store}
    (h : Reachable timeWindow maxRequests s) (id : UserId)
    (l : UserRequests) (hl : storeGet s id = some l) :
    (l.length : Int) ≤ maxRequests :=
  ((reachable_invariant (by omega) h).2 id l hl).2

theorem log_length_bounded_witness :
    (([1000] : UserRequests).length : Int) ≤ 2 :=
  log_length_bounded 5000 2 (by decide)
    (Reachable.accept "A" 1000 Reachable.init) "A" [1000] (by decide)

end RateLimiter
